import Mathlib

/-!
Verification of the XML-to-HTML converter utilities
(`convertXmlToHtml`, `isTabularData`, `convertTableXmlToHtml`,
`convertFeedToHtml`, `convertToHtmlTable`, `convertToSemanticHtml`,
`formatXml`, `formatHtml`).

The document model is a shallow embedding of the browser DOM as used by the
source: an ordered tree of element and text nodes.  Pure functions of the
source become Lean functions on this tree.  The browser-provided pieces
(`DOMParser`, `XMLSerializer`, the `js-beautify` formatter) are not part of
the repository; they are modelled from the specification and are marked as
such in their doc comments.
-/

set_option maxHeartbeats 1000000
set_option maxRecDepth 16000

namespace XmlToHtml

/-- A DOM node: an element with a tag name, attributes and ordered child
nodes, or a text node.  Mirrors the `Element`/text-node distinction of the
document tree the source traverses. -/
inductive Node where
  | elem (tag : String) (attrs : List (String × String)) (children : List Node) : Node
  | text (s : String) : Node

/-- `tagName` of a node; text nodes have no tag (modelled as `""`, which never
collides with an XML tag name). -/
def Node.tagName : Node → String
  | .elem t _ _ => t
  | .text _ => ""

/-- All child nodes (DOM `childNodes`). -/
def Node.childNodes : Node → List Node
  | .elem _ _ cs => cs
  | .text _ => []

/-- Attribute list of a node (DOM `attributes`, in document order). -/
def Node.attrList : Node → List (String × String)
  | .elem _ a _ => a
  | .text _ => []

/-- Is this node an element? -/
def Node.isElem : Node → Bool
  | .elem _ _ _ => true
  | .text _ => false

/-- Element children only (DOM `children`). -/
def Node.children (n : Node) : List Node :=
  n.childNodes.filter Node.isElem

mutual

/-- DOM `textContent`: concatenation of all descendant text, in document
order. -/
def Node.textContent : Node → String
  | .text s => s
  | .elem _ _ cs => textContentList cs

/-- `textContent` of a list of sibling nodes, concatenated in order. -/
def textContentList : List Node → String
  | [] => ""
  | n :: ns => n.textContent ++ textContentList ns

end

mutual

/-- A node together with all its descendants, in document (pre)order. -/
def Node.selfAndDescendants : Node → List Node
  | .text s => [.text s]
  | .elem t a cs => .elem t a cs :: descendantsList cs

/-- Descendants of a list of sibling nodes, in document order. -/
def descendantsList : List Node → List Node
  | [] => []
  | n :: ns => n.selfAndDescendants ++ descendantsList ns

end

/-- Strict descendants of a node, in document order.  This is the search
space of DOM `querySelector`/`querySelectorAll` on that node. -/
def Node.descendants (n : Node) : List Node :=
  descendantsList n.childNodes

/-- `querySelectorAll` restricted to the selectors the source uses: a list of
plain tag names, matched case-sensitively (the documents are parsed as
`text/xml`).  Returns all matching descendant elements in document order. -/
def queryAll (n : Node) (tags : List String) : List Node :=
  n.descendants.filter (fun d => d.isElem && tags.contains d.tagName)

/-- `querySelector` for a list of plain tag names: first matching descendant
element in document order, if any. -/
def queryFirst (n : Node) (tags : List String) : Option Node :=
  (queryAll n tags).head?

/-- JavaScript `String.prototype.toLowerCase()` as the source applies it to
tag names, modelled charwise (so it evaluates in the kernel). -/
def lowerStr (s : String) : String :=
  ⟨s.data.map Char.toLower⟩

/-- The tag names that force tabular detection in `isTabularData`. -/
def tabularTags : List String := ["table", "grid", "dataset", "records", "rows"]

/-- `isTabularData` from the source: true when the tag name (lower-cased) is
one of `tabularTags`, or when the element has more than one element child,
all element children share the same tag name, and the first child itself has
more than one element child. -/
def isTabularData (e : Node) : Bool :=
  if tabularTags.contains (lowerStr e.tagName) then
    true
  else
    match e.children with
    | c0 :: c1 :: cs =>
      let firstChildTag := c0.tagName
      let allSameTag := (c0 :: c1 :: cs).all (fun c => c.tagName == firstChildTag)
      if allSameTag then decide (1 < c0.children.length) else false
    | _ => false

/-- C1, spec-side condition: tag name lower-cased in the list, or more than
one element child, all element children with an identical tag name, and the
first child with more than one element child. -/
def tabularSpecCond (e : Node) : Prop :=
  lowerStr e.tagName ∈ tabularTags ∨
    (1 < e.children.length ∧
      (∀ c ∈ e.children, c.tagName = (e.children.headD (.text "")).tagName) ∧
      1 < ((e.children.headD (.text "")).children.length))

/-- The fixed opening of `convertTableXmlToHtml`'s output (the template
literal up to `<table class="table">`). -/
def tableTemplate : String :=
  "\n    <div class=\"xml-table-container\">\n      <style>\n        .xml-table-container \x7b font-family: system-ui, sans-serif; \x7d\n        .table \x7b width: 100%; border-collapse: collapse; margin-bottom: 1rem; \x7d\n        .table th, .table td \x7b padding: 0.75rem; text-align: left; border: 1px solid #e2e8f0; \x7d\n        .table th \x7b font-weight: 600; background-color: #f8fafc; \x7d\n        .table-responsive \x7b overflow-x: auto; \x7d\n        .table tr:nth-child(even) \x7b background-color: #f8fafc; \x7d\n      </style>\n      <div class=\"table-responsive\">\n        <table class=\"table\">\n  "

/-- The `<thead>` section of `convertTableXmlToHtml`: present only when
`tableElement.querySelector('header')` finds a `header` descendant; its
`column` descendants render as `<th>` cells in document order. -/
def theadPart (tableElement : Node) : String :=
  match queryFirst tableElement ["header"] with
  | none => ""
  | some header =>
    "<thead><tr>" ++
      String.join ((queryAll header ["column"]).map
        (fun col => "<th>" ++ col.textContent ++ "</th>")) ++
      "</tr></thead>"

/-- The `<tbody>` section of `convertTableXmlToHtml`: emitted only when
`querySelectorAll('row')` is nonempty; each row renders its `cell`
descendants as `<td>` cells in document order. -/
def tbodyPart (tableElement : Node) : String :=
  let rows := queryAll tableElement ["row"]
  if rows.isEmpty then ""
  else
    "<tbody>" ++
      String.join (rows.map (fun row =>
        "<tr>" ++
          String.join ((queryAll row ["cell"]).map
            (fun cell => "<td>" ++ cell.textContent ++ "</td>")) ++
          "</tr>")) ++
      "</tbody>"

/-- `convertTableXmlToHtml` from the source: fixed styled container, then the
optional `<thead>`, then the optional `<tbody>`, then the closing tags. -/
def convertTableXmlToHtml (tableElement : Node) : String :=
  tableTemplate ++ theadPart tableElement ++ tbodyPart tableElement ++
    "</table></div></div>"

/-- The column-name accumulator of `convertToHtmlTable`: a JavaScript `Set`
grows in insertion order, so this is an append-if-absent fold over every
element child of every row. -/
def collectColumns (rows : List Node) : List String :=
  rows.foldl
    (fun acc row =>
      row.children.foldl
        (fun acc2 cell =>
          if acc2.contains cell.tagName then acc2 else acc2 ++ [cell.tagName])
        acc)
    []

/-- Cell lookup of `convertToHtmlTable`: `row.querySelector(colName)` (first
descendant element with that tag, in document order), its `textContent`, or
the empty string when there is no match. -/
def cellContent (row : Node) (colName : String) : String :=
  match queryFirst row [colName] with
  | some cell => cell.textContent
  | none => ""

/-- The fixed prefix of `convertToHtmlTable`'s outer template literal. -/
def genericTablePre : String :=
  "\n    <div class=\"xml-table-container\">\n      <style>\n        .xml-table-container \x7b font-family: system-ui, sans-serif; \x7d\n        .table \x7b width: 100%; border-collapse: collapse; margin-bottom: 1rem; \x7d\n        .table th, .table td \x7b padding: 0.75rem; text-align: left; border-bottom: 1px solid #e2e8f0; \x7d\n        .table th \x7b font-weight: 600; background-color: #f8fafc; \x7d\n        .table-responsive \x7b overflow-x: auto; \x7d\n        .table tr:nth-child(even) \x7b background-color: #f8fafc; \x7d\n      </style>\n      "

/-- The fixed suffix of `convertToHtmlTable`'s outer template literal. -/
def genericTableSuf : String := "\n    </div>\n  "

/-- `convertToHtmlTable` from the source (the TabularGeneric renderer):
returns `''` when the element has no element children; otherwise renders a
header row from the first-seen union of column names and one `<tr>` per row,
looking each column up by tag name within the row. -/
def convertToHtmlTable (element : Node) : String :=
  let rows := element.children
  if rows.isEmpty then ""
  else
    let columnNames := collectColumns rows
    let html :=
      "<div class=\"table-responsive\"><table class=\"table\" border=\"1\" cellpadding=\"8\" cellspacing=\"0\">" ++
      "<thead><tr>" ++
        String.join (columnNames.map (fun colName => "<th>" ++ colName ++ "</th>")) ++
      "</tr></thead>" ++
      "<tbody>" ++
        String.join (rows.map (fun row =>
          "<tr>" ++
            String.join (columnNames.map (fun colName =>
              "<td>" ++ cellContent row colName ++ "</td>")) ++
            "</tr>")) ++
      "</tbody></table></div>"
    genericTablePre ++ html ++ genericTableSuf

/-- First-seen deduplication of a list of names; the spec's "union of all
distinct child-element tag names ... collected in first-seen order". -/
def firstSeenAux : List String → List String → List String
  | [], _ => []
  | x :: xs, seen =>
    if seen.contains x then firstSeenAux xs seen
    else x :: firstSeenAux xs (x :: seen)

/-- First-seen-order union of a list of names. -/
def firstSeen (l : List String) : List String := firstSeenAux l []

/-- The fixed XML-tag-to-HTML-tag lookup table of `convertToSemanticHtml`. -/
def tagMapping : List (String × String) :=
  [("title", "h1"), ("subtitle", "h2"), ("header", "header"),
   ("footer", "footer"), ("section", "section"), ("paragraph", "p"),
   ("p", "p"), ("list", "ul"), ("item", "li"), ("link", "a"),
   ("image", "img"), ("img", "img"), ("table", "table"), ("row", "tr"),
   ("cell", "td"), ("heading", "h3"), ("content", "div"), ("div", "div"),
   ("span", "span"), ("article", "article"), ("nav", "nav"),
   ("button", "button"), ("input", "input")]

/-- `tagMapping[tagName] || 'div'`. -/
def htmlTagFor (tagName : String) : String :=
  (tagMapping.lookup tagName).getD "div"

/-- DOM `getAttribute`: value of the first attribute with the given name. -/
def getAttr (e : Node) (name : String) : Option String :=
  e.attrList.lookup name

/-- The attributes `convertToSemanticHtml` writes into the opening tag, in
emission order: the `class="xml-<tag>"` marker, then `href` (anchors) or
`src`/`alt` (images) when present on the source element, then every other
source attribute as `data-<name>`, with `href` and `src` skipped there. -/
def semAttrs (e : Node) : List (String × String) :=
  let tagName := lowerStr e.tagName
  let htmlTag := htmlTagFor tagName
  ("class", "xml-" ++ tagName) ::
    ((if htmlTag == "a" && (getAttr e "href").isSome then
        [("href", (getAttr e "href").getD "")]
      else if htmlTag == "img" && (getAttr e "src").isSome then
        [("src", (getAttr e "src").getD ""), ("alt", (getAttr e "alt").getD "")]
      else []) ++
     (e.attrList.filter (fun a => !(a.1 == "href") && !(a.1 == "src"))).map
       (fun a => ("data-" ++ a.1, a.2)))

/-- Serialization of an attribute list as the source appends it: a leading
space, the name, `="`, the value, `"`. -/
def renderAttrs (l : List (String × String)) : String :=
  String.join (l.map (fun a => " " ++ a.1 ++ "=\"" ++ a.2 ++ "\""))

/-- Number of element children (DOM `childElementCount`). -/
def countElemChildren (l : List Node) : Nat :=
  (l.filter Node.isElem).length

mutual

/-- `convertToSemanticHtml` from the source, without the root-only wrapper
(the source guards the wrapper with an identity check against
`ownerDocument.documentElement`, which holds exactly for the top-level call;
here the wrapper is applied by `convertToSemanticDoc` instead).  Maps the
tag through `tagMapping`, emits the class and attribute list, then either
the element's `textContent` (no element children) or the recursive
rendering of its element children in document order. -/
def convertToSemanticHtml : Node → String
  | .elem t a cs =>
    let tagName := lowerStr t
    let htmlTag := htmlTagFor tagName
    let inner :=
      if countElemChildren cs == 0 then textContentList cs
      else semanticChildren cs
    "<" ++ htmlTag ++ renderAttrs (semAttrs (.elem t a cs)) ++ ">" ++ inner ++
      "</" ++ htmlTag ++ ">"
  | .text s =>
    "<div" ++ renderAttrs (semAttrs (.text s)) ++ ">" ++ s ++ "</div>"

/-- Recursive rendering of the element children (the source iterates
`element.children`; text nodes contribute nothing there). -/
def semanticChildren : List Node → String
  | [] => ""
  | .text _ :: cs => semanticChildren cs
  | .elem t a gs :: cs =>
    convertToSemanticHtml (.elem t a gs) ++ semanticChildren cs

end

/-- The root-only styled container of `convertToSemanticHtml` (the template
literal returned when the element is the document element). -/
def semanticWrap (html : String) : String :=
  "\n      <div class=\"semantic-xml-content\">\n        <style>\n          .semantic-xml-content \x7b font-family: system-ui, sans-serif; line-height: 1.5; \x7d\n          .xml-title, .xml-h1 \x7b font-size: 2rem; font-weight: bold; margin-bottom: 1rem; \x7d\n          .xml-subtitle, .xml-h2 \x7b font-size: 1.5rem; font-weight: bold; margin-bottom: 0.75rem; \x7d\n          .xml-heading, .xml-h3 \x7b font-size: 1.25rem; font-weight: bold; margin-bottom: 0.5rem; \x7d\n          .xml-paragraph, .xml-p \x7b margin-bottom: 1rem; \x7d\n          .xml-list \x7b list-style-type: disc; padding-left: 1.5rem; margin-bottom: 1rem; \x7d\n          .xml-item \x7b margin-bottom: 0.5rem; \x7d\n          .xml-link \x7b color: #0077cc; text-decoration: underline; \x7d\n          .xml-image \x7b max-width: 100%; height: auto; \x7d\n          .xml-section \x7b margin-bottom: 2rem; padding: 1rem; border: 1px solid #e2e8f0; border-radius: 0.25rem; \x7d\n          .xml-content, .xml-div \x7b margin-bottom: 1rem; \x7d\n          .xml-article \x7b border-bottom: 1px solid #e2e8f0; padding-bottom: 1rem; margin-bottom: 1rem; \x7d\n          .xml-button \x7b padding: 0.5rem 1rem; background-color: #f1f5f9; border: 1px solid #94a3b8; border-radius: 0.25rem; \x7d\n        </style>\n        " ++
    html ++ "\n      </div>\n    "

/-- `convertToSemanticHtml` applied to the document root: the recursion plus
the one root-level wrapper. -/
def convertToSemanticDoc (root : Node) : String :=
  semanticWrap (convertToSemanticHtml root)

/-- `createHtmlDisplay` from the source: tabular data goes to the generic
table renderer, everything else to the semantic renderer (called on the
document root, hence the wrapping variant). -/
def createHtmlDisplay (root : Node) : String :=
  if isTabularData root then convertToHtmlTable root
  else convertToSemanticDoc root

/-- Feed item template of `convertFeedToHtml`. -/
def feedItemHtml (item : Node) : String :=
  let itemTitle :=
    match queryFirst item ["title"] with
    | some t => if t.textContent == "" then "Untitled" else t.textContent
    | none => "Untitled"
  let itemLink :=
    match queryFirst item ["link"] with
    | some l => if l.textContent == "" then "#" else l.textContent
    | none => "#"
  let itemDesc :=
    match queryFirst item ["description", "summary", "content"] with
    | some d => d.textContent
    | none => ""
  "\n        <div class=\"feed-item\">\n          <h2><a href=\"" ++ itemLink ++
    "\">" ++ itemTitle ++ "</a></h2>\n          <div class=\"feed-content\">" ++
    itemDesc ++ "</div>\n        </div>\n      "

/-- The items of a feed: `querySelectorAll('item, entry')` on the root, in
document order. -/
def feedItems (root : Node) : List Node :=
  queryAll root ["item", "entry"]

/-- Feed title: `querySelector('title, channel > title')` (equivalent to the
first `title` descendant, in document order), default `XML Feed` when absent
or empty. -/
def feedTitle (root : Node) : String :=
  match queryFirst root ["title"] with
  | some t => if t.textContent == "" then "XML Feed" else t.textContent
  | none => "XML Feed"

/-- Feed description paragraph: the first `description` or `subtitle`
descendant, emitted only when present with non-empty text. -/
def feedDescriptionPart (root : Node) : String :=
  match queryFirst root ["description", "subtitle"] with
  | some d =>
    if d.textContent == "" then ""
    else "<p class=\"feed-description\">" ++ d.textContent ++ "</p>"
  | none => ""

/-- The `feed-items` block: one `feedItemHtml` per item, in document order;
absent when there are no items. -/
def feedItemsPart (root : Node) : String :=
  let items := feedItems root
  if items.isEmpty then ""
  else
    "<div class=\"feed-items\">" ++ String.join (items.map feedItemHtml) ++
      "</div>"

/-- `convertFeedToHtml` from the source: title (first `title` descendant,
default `XML Feed`), optional description (`description` or `subtitle`),
then one `feed-item` block per `item`/`entry` descendant in document
order. -/
def convertFeedToHtml (root : Node) : String :=
  "<div class=\"xml-feed\">" ++ "<h1>" ++ feedTitle root ++ "</h1>" ++
    feedDescriptionPart root ++ feedItemsPart root ++ "</div>"

mutual

/-- Number of `item`/`entry` elements in a subtree (the node itself
included). -/
def cntNodeItemEntry : Node → Nat
  | .text _ => 0
  | .elem t _ cs =>
    (if t == "item" || t == "entry" then 1 else 0) + cntListItemEntry cs

/-- Number of `item`/`entry` elements in a forest. -/
def cntListItemEntry : List Node → Nat
  | [] => 0
  | n :: ns => cntNodeItemEntry n + cntListItemEntry ns

end

/-- Number of `item`/`entry` elements strictly below the root. -/
def countItemEntry (root : Node) : Nat :=
  cntListItemEntry root.childNodes

mutual

/-- Modelled from the spec: `XMLSerializer.serializeToString` (not part of
the repository) re-emits an element's own markup verbatim; empty elements
serialize self-closed. -/
def serializeNode : Node → String
  | .text s => s
  | .elem t a cs =>
    match cs with
    | [] => "<" ++ t ++ renderAttrs a ++ "/>"
    | c :: rest =>
      "<" ++ t ++ renderAttrs a ++ ">" ++ serializeList (c :: rest) ++
        "</" ++ t ++ ">"

/-- Serialization of a list of sibling nodes. -/
def serializeList : List Node → String
  | [] => ""
  | n :: ns => serializeNode n ++ serializeList ns

end

/-- The shape classification of the spec (section 4.2). -/
inductive Shape where
  | table
  | feed
  | svgPassthrough
  | tabularGeneric
  | semanticGeneric
deriving DecidableEq

/-- Modelled from the spec's words (section 4.2): first-match-wins
classification of the root, evaluated top-down. -/
def specClassify (root : Node) : Shape :=
  if lowerStr root.tagName = "table" then .table
  else if lowerStr root.tagName ∈ (["rss", "feed", "channel"] : List String) then .feed
  else if lowerStr root.tagName = "svg" then .svgPassthrough
  else if isTabularData root then .tabularGeneric
  else .semanticGeneric

/-- The renderer selected for each shape. -/
def renderFor (shape : Shape) (root : Node) : String :=
  match shape with
  | .table => convertTableXmlToHtml root
  | .feed => convertFeedToHtml root
  | .svgPassthrough => serializeNode root
  | .tabularGeneric => convertToHtmlTable root
  | .semanticGeneric => convertToSemanticDoc root

/-- The dispatch of `convertXmlToHtml` on a parsed root, with the source's
branch structure: the `table` early return, then the `rss`/`feed`/`channel`
and `svg` cases, then `isTabularData`, then `createHtmlDisplay` (which
re-checks `isTabularData` itself). -/
def dispatchRoot (rootElement : Node) : String :=
  if lowerStr rootElement.tagName == "table" then
    convertTableXmlToHtml rootElement
  else
    let rootTagName := lowerStr rootElement.tagName
    if rootTagName == "rss" || rootTagName == "feed" || rootTagName == "channel" then
      convertFeedToHtml rootElement
    else if rootTagName == "svg" then
      serializeNode rootElement
    else if isTabularData rootElement then
      convertToHtmlTable rootElement
    else
      createHtmlDisplay rootElement

/-- Whitespace test used throughout (space, tab, CR, LF). -/
def isWs (c : Char) : Bool := c.isWhitespace

/-- Emptiness-after-trim test: models the source's `!s.trim()` checks (a
string is discarded as blank iff every character is whitespace). -/
def isBlank (s : String) : Bool := s.data.all isWs

/-- Characters allowed in modelled XML tag and attribute names. -/
def nameChar (c : Char) : Bool :=
  !isWs c && c != '/' && c != '>' && c != '<' && c != '=' && c != '"' &&
    c != '!' && c != '?'

/-- Tokens of the modelled XML surface syntax. -/
inductive XTok where
  | opn (name : String) (attrs : List (String × String))
  | self (name : String) (attrs : List (String × String))
  | cls (name : String)
  | txt (s : String)

/-- Modelled from the spec (section 4.1): attribute-list parsing for the
parser adapter (`DOMParser` is not part of the repository).  Attributes are
`name="value"` pairs separated by whitespace; anything else is malformed.
The fuel argument only bounds the recursion and exceeds the input length at
every call. -/
def parseAttrsFuel : Nat → List Char → Option (List (String × String))
  | 0, _ => none
  | fuel + 1, l =>
    let l1 := l.dropWhile isWs
    match l1 with
    | [] => some []
    | _ =>
      let nm := l1.takeWhile nameChar
      if nm.isEmpty then none
      else
        match l1.drop nm.length with
        | '=' :: '"' :: rest =>
          let v := rest.takeWhile (fun c => c != '"')
          match rest.drop v.length with
          | '"' :: rest2 =>
            (parseAttrsFuel fuel rest2).map (fun as => (⟨nm⟩, ⟨v⟩) :: as)
          | _ => none
        | _ => none

/-- Modelled from the spec (section 4.1): classification of the characters
between `<` and `>` as a closing, self-closing or opening tag.  Comments,
processing instructions and doctypes are not modelled; they make the input
malformed here. -/
def parseTagRaw (raw : List Char) : Option XTok :=
  match raw with
  | '/' :: rest =>
    let nm := rest.takeWhile nameChar
    if nm.isEmpty then none
    else if (rest.drop nm.length).all isWs then some (.cls ⟨nm⟩)
    else none
  | _ =>
    let selfClosing := raw.getLast? == some '/'
    let body := if selfClosing then raw.dropLast else raw
    let nm := body.takeWhile nameChar
    if nm.isEmpty then none
    else
      match parseAttrsFuel (body.length + 1) (body.drop nm.length) with
      | some as => some (if selfClosing then .self ⟨nm⟩ as else .opn ⟨nm⟩ as)
      | none => none

/-- Modelled from the spec (section 4.1): the character scanner of the
parser adapter.  `acc` is the pending chunk (reversed); the flag tells
whether the scanner is inside a tag.  Unterminated tags are malformed. -/
def xtokChars : List Char → List Char → Bool → Option (List XTok)
  | [], acc, false => some (if acc.isEmpty then [] else [.txt ⟨acc.reverse⟩])
  | [], _, true => none
  | c :: rest, acc, false =>
    if c = '<' then
      if acc.isEmpty then xtokChars rest [] true
      else (xtokChars rest [] true).map (fun ts => .txt ⟨acc.reverse⟩ :: ts)
    else xtokChars rest (c :: acc) false
  | c :: rest, acc, true =>
    if c = '>' then
      match parseTagRaw acc.reverse with
      | some t => (xtokChars rest [] false).map (fun ts => t :: ts)
      | none => none
    else xtokChars rest (c :: acc) true

/-- An open element still waiting for its closing tag. -/
structure Frame where
  tag : String
  attrs : List (String × String)
  rev : List Node

/-- Attach a finished node to the innermost open element, or to the
top level when the stack is empty. -/
def pushNode (n : Node) : List Frame → List Node → List Frame × List Node
  | [], roots => ([], n :: roots)
  | f :: fs, roots => (⟨f.tag, f.attrs, n :: f.rev⟩ :: fs, roots)

/-- A node allowed at the top level of a document: an element, or
whitespace-only text. -/
def topLevelOk : Node → Bool
  | .elem _ _ _ => true
  | .text s => isBlank s

/-- Modelled from the spec (section 4.1): tree construction over the token
stream.  Mismatched or unclosed tags, a missing root element, several root
elements, or non-blank text outside the root make the input malformed. -/
def buildTree : List XTok → List Frame → List Node → Except String Node
  | [], [], roots =>
    let tops := roots.reverse
    match tops.filter Node.isElem with
    | [root] => if tops.all topLevelOk then .ok root else .error "Invalid XML"
    | _ => .error "Invalid XML"
  | [], _ :: _, _ => .error "Invalid XML"
  | .txt s :: ts, stack, roots =>
    let p := pushNode (.text s) stack roots
    buildTree ts p.1 p.2
  | .opn n a :: ts, stack, roots => buildTree ts (⟨n, a, []⟩ :: stack) roots
  | .self n a :: ts, stack, roots =>
    let p := pushNode (.elem n a []) stack roots
    buildTree ts p.1 p.2
  | .cls _ :: _, [], _ => .error "Invalid XML"
  | .cls n :: ts, f :: fs, roots =>
    if n == f.tag then
      let p := pushNode (.elem f.tag f.attrs f.rev.reverse) fs roots
      buildTree ts p.1 p.2
    else .error "Invalid XML"

/-- Modelled from the spec (section 4.1): the parser adapter.  Well-formed
XML yields the document tree rooted at the single top-level element;
malformed input yields a diagnostic. -/
def parse (s : String) : Except String Node :=
  match xtokChars s.data [] false with
  | none => .error "Invalid XML"
  | some ts => buildTree ts [] []

/-- `convertXmlToHtml` from the source: parse, fail with `Invalid XML
format` on a parser error, otherwise dispatch on the root element. -/
def convertXmlToHtml (xmlString : String) : Except String String :=
  match parse xmlString with
  | .error _ => .error "Invalid XML format"
  | .ok rootElement => .ok (dispatchRoot rootElement)

/-- Tokens of the modelled pretty-printer: a tag (the raw characters
between `<` and `>`) or a run of text. -/
inductive HTok where
  | tag (raw : String)
  | txt (s : String)

/-- Modelled from the spec (section 4.8): the scanner of the pretty-printer.
`acc` is the pending chunk (reversed); the flag tells whether the scanner is
inside a tag.  Total: an unterminated tag is kept as a tag token. -/
def tokChars : List Char → List Char → Bool → List HTok
  | [], acc, false => if acc.isEmpty then [] else [.txt ⟨acc.reverse⟩]
  | [], acc, true => [.tag ⟨acc.reverse⟩]
  | c :: rest, acc, false =>
    if c = '<' then
      if acc.isEmpty then tokChars rest [] true
      else .txt ⟨acc.reverse⟩ :: tokChars rest [] true
    else tokChars rest (c :: acc) false
  | c :: rest, acc, true =>
    if c = '>' then .tag ⟨acc.reverse⟩ :: tokChars rest [] false
    else tokChars rest (c :: acc) true

/-- Trim of a character list (both ends). -/
def trimCh (l : List Char) : List Char :=
  ((l.dropWhile isWs).reverse.dropWhile isWs).reverse

/-- Whitespace normalization of the token stream: text runs are trimmed and
blank runs dropped (the spec's blank-line collapsing), tags are kept. -/
def normToks : List HTok → List HTok
  | [] => []
  | .tag r :: ts => .tag r :: normToks ts
  | .txt t :: ts =>
    match trimCh t.data with
    | [] => normToks ts
    | c :: cs => .txt ⟨c :: cs⟩ :: normToks ts

/-- Does this token end an element (a `</...>` tag)? -/
def tokIsClose : HTok → Bool
  | .tag r => match r.data with | '/' :: _ => true | _ => false
  | .txt _ => false

/-- Does this token open an element that will be indented (not a closing,
self-closing, comment or processing-instruction tag)? -/
def tokIsOpen : HTok → Bool
  | .tag r =>
    match r.data with
    | [] => false
    | c :: _ =>
      !(c == '/' || c == '!' || c == '?') && !(r.data.getLast? == some '/')
  | .txt _ => false

/-- The characters of a token as re-emitted by the pretty-printer. -/
def tokContent : HTok → List Char
  | .tag r => '<' :: (r.data ++ ['>'])
  | .txt t => t.data

/-- Modelled from the spec (section 4.8): re-emission with 2-space
indentation, one token per line, every line terminated by a newline (hence
exactly one trailing newline). -/
def renderToks : Nat → List HTok → List Char
  | _, [] => []
  | d, t :: ts =>
    let d1 := if tokIsClose t then d - 1 else d
    List.replicate (2 * d1) ' ' ++ tokContent t ++ '\n' ::
      renderToks (if tokIsOpen t then d1 + 1 else d1) ts

/-- Modelled from the spec (section 4.8): `formatCode`, the generic
`js-beautify` call (the library is not part of the repository), as a
tokenize / normalize-whitespace / re-indent pipeline with the fixed
configuration of section 4.8 (2-space indentation, newline-terminated
output; line wrapping at 120 columns is not modelled). -/
def formatCode (code : String) (_kind : String) : String :=
  ⟨renderToks 0 (normToks (tokChars code.data [] false))⟩

/-- `formatHtml` from the source: blank input yields `""`; otherwise the
generic formatter (whose failures fall back to the input unchanged; the
model's formatter is total). -/
def formatHtml (htmlString : String) : String :=
  if isBlank htmlString then "" else formatCode htmlString "html"

/-- `formatXml` from the source: blank input yields `""`; a parser error
falls back to the input unchanged; otherwise the document is re-serialized
and formatted. -/
def formatXml (xmlString : String) : String :=
  if isBlank xmlString then ""
  else
    match parse xmlString with
    | .error _ => xmlString
    | .ok root => formatCode (serializeNode root) "xml"

/-- The SemanticGeneric example input of the spec (section 8). -/
def listInput : String := "<list><item>One</item><item>Two</item></list>"

/-- The inner HTML the semantic renderer produces for `listInput`. -/
def ulOut : String :=
  "<ul class=\"xml-list\"><li class=\"xml-item\">One</li><li class=\"xml-item\">Two</li></ul>"

/-- Heterogeneous-rows example: row with child fields `x`, `y`. -/
def hetRowA : Node :=
  .elem "r" [] [.elem "x" [] [.text "1"], .elem "y" [] [.text "2"]]

/-- Heterogeneous-rows example: row with child fields `x`, `z`, where a `y`
element sits nested inside `z` rather than as a child field. -/
def hetRowB : Node :=
  .elem "r" [] [.elem "x" [] [.text "3"],
                .elem "z" [] [.elem "y" [] [.text "hidden"]]]

/-- Heterogeneous-rows example root (TabularGeneric input). -/
def hetTable : Node := .elem "data" [] [hetRowA, hetRowB]

/-- The document tree `parse` produces for `listInput`. -/
def listRoot : Node :=
  .elem "list" [] [.elem "item" [] [.text "One"], .elem "item" [] [.text "Two"]]

/-- Number of start positions at which `pat` occurs as a substring. -/
def countSubs (pat : List Char) : List Char → Nat
  | [] => if pat.isEmpty then 1 else 0
  | c :: rest =>
    (if pat.isPrefixOf (c :: rest) then 1 else 0) + countSubs pat rest

/-- A feed example: an `rss` root with two items under a channel. -/
def feedExample : Node :=
  .elem "rss" [] [.elem "channel" []
    [.elem "title" [] [.text "T"],
     .elem "item" [] [.elem "title" [] [.text "A"]],
     .elem "item" [] [.elem "title" [] [.text "B"]]]]

/-- An anchor example element carrying an `href` and one other attribute. -/
def anchorExample : Node :=
  .elem "link" [("href", "https://example.org"), ("id", "7")] []

/-- An image example element carrying `src` and one other attribute. -/
def imageExample : Node :=
  .elem "image" [("src", "pic.png"), ("width", "40")] []

/-- Number of attributes with the given name in an attribute list. -/
def countKey (l : List (String × String)) (k : String) : Nat :=
  (l.filter (fun a => a.1 == k)).length

/-- A normalized text run: nonempty, not starting or ending in whitespace,
and free of `<`. -/
def tidyText (l : List Char) : Bool :=
  match l.head?, l.getLast? with
  | some a, some b => !isWs a && !isWs b && !l.contains '<'
  | _, _ => false

/-- Does the token list avoid starting with a text run? -/
def headNotText : List HTok → Bool
  | .txt _ :: _ => false
  | _ => true

/-- Invariant of normalized token streams: tags free of `>`, text runs tidy
and never adjacent. -/
def tidyToks : List HTok → Bool
  | [] => true
  | .tag r :: ts => !r.data.contains '>' && tidyToks ts
  | .txt t :: ts => tidyText t.data && headNotText ts && tidyToks ts

/-- Invariant of raw scanner output: tags free of `>`, text runs free of `<`
and never adjacent. -/
def rawOk : List HTok → Bool
  | [] => true
  | .tag r :: ts => !r.data.contains '>' && rawOk ts
  | .txt t :: ts => !t.data.contains '<' && headNotText ts && rawOk ts

-- ===================================================================
-- Theorems
-- ===================================================================

/-- `List.contains` agrees with list membership. -/
theorem contains_iff (l : List String) (x : String) :
    l.contains x = true ↔ x ∈ l :=
  List.elem_iff

/-- **C1.** `isTabularData` returns true iff the element's lower-cased tag is
in `table/grid/dataset/records/rows`, or it has more than one element child,
all element children share an identical tag name, and the first child has
more than one element child; in particular it is false for elements with at
most one element child whose tag is not in the list. -/
theorem isTabularData_iff :
    ∀ e : Node,
      (isTabularData e = true ↔ tabularSpecCond e) ∧
      (e.children.length ≤ 1 → lowerStr e.tagName ∉ tabularTags →
        isTabularData e = false) := by
  intro e
  constructor
  · unfold isTabularData tabularSpecCond
    by_cases hmem : lowerStr e.tagName ∈ tabularTags
    · rw [if_pos ((contains_iff _ _).mpr hmem)]
      simp [hmem]
    · rw [if_neg (fun h => hmem ((contains_iff _ _).mp h))]
      cases hc : e.children with
      | nil => simp [hmem, hc]
      | cons c0 rest =>
        cases rest with
        | nil => simp [hmem, hc]
        | cons c1 cs =>
          simp only [hc, false_or, List.headD_cons]
          rw [or_iff_right hmem]
          by_cases hall : ∀ c ∈ c0 :: c1 :: cs, c.tagName = c0.tagName
          · have hb : (c0 :: c1 :: cs).all (fun c => c.tagName == c0.tagName) = true := by
              rw [List.all_eq_true]
              intro c hcmem
              exact beq_iff_eq.mpr (hall c hcmem)
            simp only [hb, if_pos rfl]
            constructor
            · intro h
              exact ⟨by simp, hall, of_decide_eq_true h⟩
            · intro h
              exact decide_eq_true h.2.2
          · have hb : (c0 :: c1 :: cs).all (fun c => c.tagName == c0.tagName) = false := by
              rw [List.all_eq_false]
              push_neg at hall
              obtain ⟨c, hcmem, hne⟩ := hall
              exact ⟨c, hcmem, by simpa using hne⟩
            simp only [hb]
            constructor
            · intro h; simp at h
            · intro h
              exfalso
              rw [List.all_eq_false] at hb
              obtain ⟨c, hcmem, hne⟩ := hb
              have hne' : ¬ c.tagName = c0.tagName := by simpa using hne
              exact hne' (h.2.1 c hcmem)
  · intro hlen hmem
    unfold isTabularData
    rw [if_neg (fun h => hmem ((contains_iff _ _).mp h))]
    cases hc : e.children with
    | nil => rfl
    | cons c0 rest =>
      cases rest with
      | nil => rfl
      | cons c1 cs => rw [hc] at hlen; simp at hlen

/-- Witness for C1: the predicate is decided correctly on a concrete element
with two same-tag multi-field children, and on a single-child element. -/
theorem isTabularData_iff_witness :
    isTabularData (.elem "data" []
      [.elem "r" [] [.elem "x" [] [], .elem "y" [] []],
       .elem "r" [] [.elem "x" [] []]]) = true ∧
    isTabularData (.elem "stuff" [] [.elem "r" [] []]) = false := by
  have h1 : tabularSpecCond (.elem "data" []
      [.elem "r" [] [.elem "x" [] [], .elem "y" [] []],
       .elem "r" [] [.elem "x" [] []]]) := by
    unfold tabularSpecCond
    right
    exact ⟨by decide, by decide, by decide⟩
  constructor
  · exact (isTabularData_iff (.elem "data" []
      [.elem "r" [] [.elem "x" [] [], .elem "y" [] []],
       .elem "r" [] [.elem "x" [] []]])).1.mpr h1
  · exact (isTabularData_iff (.elem "stuff" [] [.elem "r" [] []])).2
      (by decide) (by decide)

/-- **C2, counterexample.**  `<table></table>` is well-formed, its root has
no `row` children, yet the output contains no `<tbody>` at all (the source
emits `<tbody>` only when at least one `row` exists), contradicting the
claim that an empty `<tbody>` is rendered. -/
theorem convertTable_no_tbody_counterexample :
    parse "<table></table>" = .ok (.elem "table" [] []) ∧
    (Node.elem "table" [] []).children = [] ∧
    convertXmlToHtml "<table></table>" =
      .ok (convertTableXmlToHtml (.elem "table" [] [])) ∧
    countSubs "<tbody>".data (convertTableXmlToHtml (.elem "table" [] [])).data
      = 0 := by
  refine ⟨rfl, rfl, rfl, ?_⟩
  decide

/-- **C2, amended.**  For every root handed to the Table renderer, the output
decomposes as template, `<thead>` section, `<tbody>` section, closing tags;
the `<thead>` section is empty when the root has no `header` descendant, and
the `<tbody>` section is empty (no `<tbody>` emitted) when it has no `row`
descendants. -/
theorem convertTable_missing_sections :
    ∀ root : Node,
      convertTableXmlToHtml root =
        tableTemplate ++ theadPart root ++ tbodyPart root ++
          "</table></div></div>" ∧
      ((queryFirst root ["header"]).isNone = true → theadPart root = "") ∧
      (queryAll root ["row"] = [] → tbodyPart root = "") := by
  intro root
  refine ⟨rfl, ?_, ?_⟩
  · intro h
    rw [Option.isNone_iff_eq_none] at h
    unfold theadPart
    rw [h]
  · intro h
    unfold tbodyPart
    rw [h]
    rfl

/-- Witness for the amended C2 at `<table></table>`: both hypotheses hold
and both sections are empty. -/
theorem convertTable_missing_sections_witness :
    (queryFirst (Node.elem "table" [] []) ["header"]).isNone = true ∧
    queryAll (Node.elem "table" [] []) ["row"] = [] ∧
    theadPart (.elem "table" [] []) = "" ∧
    tbodyPart (.elem "table" [] []) = "" :=
  ⟨rfl, rfl,
    (convertTable_missing_sections (.elem "table" [] [])).2.1 rfl,
    (convertTable_missing_sections (.elem "table" [] [])).2.2 rfl⟩

/-- **C3, counterexample.**  `hetTable` is TabularGeneric input whose rows
have heterogeneous child-field sets; the rendered column set is the ordered
union `x, y, z`, the column `y` is absent from row B's child fields, yet
row B's `y` cell renders the nested descendant's text `hidden`, not an empty
cell — `row.querySelector(colName)` searches all descendants, not only
child fields. -/
theorem hetTable_y_cell_not_empty :
    specClassify hetTable = Shape.tabularGeneric ∧
    hetTable.children = [hetRowA, hetRowB] ∧
    collectColumns hetTable.children = ["x", "y", "z"] ∧
    (hetRowB.children.map Node.tagName).contains "y" = false ∧
    cellContent hetRowB "y" = "hidden" ∧
    cellContent hetRowB "y" ≠ "" := by
  refine ⟨rfl, rfl, rfl, by decide, rfl, by decide⟩

/-- String `==` is decided equality. -/
theorem beq_decide (y x : String) : (y == x) = decide (y = x) := by
  cases h : y == x
  · symm
    rw [decide_eq_false_iff_not]
    intro he
    subst he
    simp at h
  · symm
    rw [decide_eq_true_eq]
    exact eq_of_beq h

/-- `contains` over a snoc. -/
theorem contains_snoc (a : List String) (x y : String) :
    (a ++ [x]).contains y = (a.contains y || (y == x)) := by
  simp
  rw [beq_decide]

/-- `contains` over a cons. -/
theorem contains_cons_str (seen : List String) (x y : String) :
    (x :: seen).contains y = ((y == x) || seen.contains y) := by
  simp
  rw [beq_decide]

/-- The append-if-absent fold is first-seen deduplication appended to the
accumulator, for any accumulator whose membership agrees with `seen`. -/
theorem foldl_insert_eq (l : List String) :
    ∀ acc seen : List String,
      (∀ x, acc.contains x = seen.contains x) →
      l.foldl (fun a x => if a.contains x then a else a ++ [x]) acc =
        acc ++ firstSeenAux l seen := by
  induction l with
  | nil => intro acc seen _; simp [firstSeenAux]
  | cons x xs ih =>
    intro acc seen h
    simp only [List.foldl_cons, firstSeenAux]
    rw [h x]
    cases hx : seen.contains x with
    | true =>
      simp only [if_pos rfl]
      exact ih acc seen h
    | false =>
      rw [if_neg (fun hc => nomatch hc), if_neg (fun hc => nomatch hc)]
      rw [ih (acc ++ [x]) (x :: seen) ?_, List.append_assoc]
      · rfl
      · intro y
        rw [contains_snoc, contains_cons_str, h y, Bool.or_comm]

/-- **C3, amended.**  The header column set of `convertToHtmlTable` is the
union of all distinct child-element tag names across every row, in
first-seen order; and a column with no matching descendant in a row renders
as the empty cell content. -/
theorem convertToHtmlTable_columns_missing_empty :
    ∀ e : Node,
      collectColumns e.children =
        firstSeen (e.children.flatMap (fun r => r.children.map Node.tagName)) ∧
      (∀ r ∈ e.children, ∀ colName : String,
        (queryFirst r [colName]).isNone = true → cellContent r colName = "") := by
  intro e
  constructor
  · unfold collectColumns firstSeen
    have hmap : ∀ (row : Node) (acc : List String),
        row.children.foldl
          (fun acc2 cell =>
            if acc2.contains cell.tagName then acc2 else acc2 ++ [cell.tagName])
          acc =
          (row.children.map Node.tagName).foldl
            (fun a x => if a.contains x then a else a ++ [x]) acc := by
      intro row acc
      rw [List.foldl_map]
    have hflat : ∀ (rows : List Node) (acc : List String),
        rows.foldl
          (fun acc row =>
            row.children.foldl
              (fun acc2 cell =>
                if acc2.contains cell.tagName then acc2
                else acc2 ++ [cell.tagName])
              acc)
          acc =
          (rows.flatMap (fun r => r.children.map Node.tagName)).foldl
            (fun a x => if a.contains x then a else a ++ [x]) acc := by
      intro rows
      induction rows with
      | nil => intro acc; simp
      | cons r rs ih =>
        intro acc
        simp only [List.foldl_cons, List.flatMap_cons, List.foldl_append]
        rw [hmap r acc, ih]
    rw [hflat]
    simpa using foldl_insert_eq _ [] [] (fun _ => rfl)
  · intro r _ colName h
    rw [Option.isNone_iff_eq_none] at h
    unfold cellContent
    rw [h]

/-- Witness for the amended C3 on `hetTable`: the computed column union, and
an absent column rendering empty in row A. -/
theorem convertToHtmlTable_columns_missing_empty_witness :
    collectColumns hetTable.children = ["x", "y", "z"] ∧
    (queryFirst hetRowA ["z"]).isNone = true ∧
    cellContent hetRowA "z" = "" := by
  refine ⟨?_, rfl, ?_⟩
  · exact (convertToHtmlTable_columns_missing_empty hetTable).1.trans (by decide)
  · refine (convertToHtmlTable_columns_missing_empty hetTable).2 hetRowA ?_ "z" rfl
    rw [show hetTable.children = [hetRowA, hetRowB] from rfl]
    exact List.mem_cons_self _ _

/-- **C4.**  `<list><item>One</item><item>Two</item></list>` parses to
`listRoot`, classifies as SemanticGeneric (not Table/Feed/SVG, and the
tabular predicate fails), and converts to a `<ul>` with exactly two `<li>`
children holding `One` and `Two`, wrapped exactly once in the top-level
styled container (the wrapper marker occurs once in the output and not at
all inside the inner HTML). -/
theorem convertXmlToHtml_list_example :
    parse listInput = .ok listRoot ∧
    specClassify listRoot = Shape.semanticGeneric ∧
    isTabularData listRoot = false ∧
    convertXmlToHtml listInput = .ok (semanticWrap ulOut) ∧
    countSubs "<li".data ulOut.data = 2 ∧
    countSubs ">One<".data ulOut.data = 1 ∧
    countSubs ">Two<".data ulOut.data = 1 ∧
    countSubs "<div class=\"semantic-xml-content\">".data ulOut.data = 0 ∧
    countSubs "<div class=\"semantic-xml-content\">".data (semanticWrap ulOut).data = 1 := by
  refine ⟨rfl, rfl, rfl, rfl, by decide, by decide, by decide, by decide, ?_⟩
  decide

/-- **C10.**  A root whose lower-cased tag is `grid`, `dataset`, `records`
or `rows` with no element children converts successfully to the empty
string: the tag passes `isTabularData`, and `convertToHtmlTable` returns
`''` for a childless element. -/
theorem convert_empty_tabular_named_root :
    ∀ (s : String) (root : Node),
      parse s = .ok root →
      lowerStr root.tagName ∈ (["grid", "dataset", "records", "rows"] : List String) →
      root.children = [] →
      convertXmlToHtml s = .ok "" := by
  intro s root hp hmem hch
  have hmem' : lowerStr root.tagName = "grid" ∨ lowerStr root.tagName = "dataset" ∨
      lowerStr root.tagName = "records" ∨ lowerStr root.tagName = "rows" := by
    simpa using hmem
  have htab : isTabularData root = true := by
    unfold isTabularData
    have hc : tabularTags.contains (lowerStr root.tagName) = true := by
      rw [contains_iff]
      rcases hmem' with h | h | h | h <;> rw [h] <;> decide
    rw [if_pos hc]
  have hconv : convertXmlToHtml s = .ok (dispatchRoot root) := by
    unfold convertXmlToHtml
    rw [hp]
  have hdisp : dispatchRoot root = convertToHtmlTable root := by
    unfold dispatchRoot
    rcases hmem' with h | h | h | h <;> rw [h] <;> simp [htab]
  have hempty : convertToHtmlTable root = "" := by
    simp only [convertToHtmlTable, hch]
    rfl
  rw [hconv, hdisp, hempty]

/-- Witness for C10 at `<grid></grid>`. -/
theorem convert_empty_tabular_named_root_witness :
    parse "<grid></grid>" = .ok (.elem "grid" [] []) ∧
    lowerStr (Node.elem "grid" [] []).tagName ∈
      (["grid", "dataset", "records", "rows"] : List String) ∧
    (Node.elem "grid" [] []).children = [] ∧
    convertXmlToHtml "<grid></grid>" = .ok "" :=
  ⟨rfl, by decide, rfl,
    convert_empty_tabular_named_root "<grid></grid>" (.elem "grid" [] [])
      rfl (by decide) rfl⟩

/-- **C5, counterexample.**  The whitespace-only string `" "` is malformed
XML (no root element), yet `formatXml` returns `""`, not the original
string: the source short-circuits blank input to `""` before parsing. -/
theorem formatXml_blank_counterexample :
    parse " " = .error "Invalid XML" ∧
    formatXml " " = "" ∧
    ("" : String) ≠ " " := by
  refine ⟨rfl, rfl, ?_⟩
  decide

/-- **C5, amended.**  Every malformed input makes `convertXmlToHtml` fail
with the `Invalid XML format` error (no partial output), and `formatXml`
returns the original string unchanged for every malformed input that is not
whitespace-only (whitespace-only input yields `""`). -/
theorem convert_format_on_malformed :
    ∀ (s : String) (m : String),
      parse s = .error m →
      convertXmlToHtml s = .error "Invalid XML format" ∧
      (isBlank s = false → formatXml s = s) := by
  intro s m hp
  constructor
  · unfold convertXmlToHtml
    rw [hp]
  · intro hb
    unfold formatXml
    rw [hb, hp]
    rfl

/-- Witness for the amended C5 at `<a><b></a>`. -/
theorem convert_format_on_malformed_witness :
    parse "<a><b></a>" = .error "Invalid XML" ∧
    isBlank "<a><b></a>" = false ∧
    convertXmlToHtml "<a><b></a>" = .error "Invalid XML format" ∧
    formatXml "<a><b></a>" = "<a><b></a>" := by
  refine ⟨rfl, by decide, ?_, ?_⟩
  · exact (convert_format_on_malformed "<a><b></a>" "Invalid XML" rfl).1
  · exact (convert_format_on_malformed "<a><b></a>" "Invalid XML" rfl).2 (by decide)

/-- **C6.**  The source's dispatch (including `createHtmlDisplay`'s
re-check) coincides with the spec's first-match-wins classification:
`table`, then `rss`/`feed`/`channel`, then `svg`, then the tabular
predicate, then SemanticGeneric. -/
theorem dispatch_follows_specClassify :
    ∀ root : Node, dispatchRoot root = renderFor (specClassify root) root := by
  intro root
  unfold dispatchRoot specClassify renderFor createHtmlDisplay
  by_cases h1 : lowerStr root.tagName = "table"
  · simp [beq_decide, h1]
  · by_cases h2 : lowerStr root.tagName = "rss"
    · simp [beq_decide, h1, h2]
    · by_cases h3 : lowerStr root.tagName = "feed"
      · simp [beq_decide, h1, h2, h3]
      · by_cases h4 : lowerStr root.tagName = "channel"
        · simp [beq_decide, h1, h2, h3, h4]
        · by_cases h5 : lowerStr root.tagName = "svg"
          · simp [beq_decide, h1, h2, h3, h4, h5]
          · by_cases h6 : isTabularData root = true
            · simp [beq_decide, h1, h2, h3, h4, h5, h6]
            · have h6' : isTabularData root = false := by
                cases h : isTabularData root
                · rfl
                · exact absurd h h6
              simp [beq_decide, h1, h2, h3, h4, h5, h6']

/-- Membership in the two-element tag list as a boolean disjunction. -/
theorem contains_two (t : String) :
    (["item", "entry"] : List String).contains t = (t == "item" || t == "entry") := by
  rw [contains_cons_str, contains_cons_str]
  simp [List.contains]

mutual

/-- Counting `item`/`entry` matches over a node's pre-order listing agrees
with the recursive count. -/
theorem cntSelf_eq : ∀ n : Node,
    ((n.selfAndDescendants).filter
      (fun d => d.isElem && (["item", "entry"] : List String).contains d.tagName)).length =
      cntNodeItemEntry n
  | .text s => rfl
  | .elem t a cs => by
    have hp : ((Node.elem t a cs).isElem &&
        (["item", "entry"] : List String).contains (Node.elem t a cs).tagName) =
        (t == "item" || t == "entry") := by
      rw [show Node.isElem (.elem t a cs) = true from rfl, Bool.true_and]
      exact contains_two t
    show ((Node.elem t a cs :: descendantsList cs).filter _).length = cntNodeItemEntry _
    rw [List.filter_cons, hp]
    simp only [cntNodeItemEntry]
    cases hb : (t == "item" || t == "entry") with
    | true =>
      rw [if_pos rfl, if_pos rfl, List.length_cons, cntForest_eq cs]
      omega
    | false =>
      rw [if_neg (fun hc => nomatch hc), if_neg (fun hc => nomatch hc),
        cntForest_eq cs]
      omega

/-- Counting `item`/`entry` matches over a forest's pre-order listing agrees
with the recursive count. -/
theorem cntForest_eq : ∀ cs : List Node,
    ((descendantsList cs).filter
      (fun d => d.isElem && (["item", "entry"] : List String).contains d.tagName)).length =
      cntListItemEntry cs
  | [] => rfl
  | n :: ns => by
    show (((n.selfAndDescendants) ++ descendantsList ns).filter _).length = _
    rw [List.filter_append, List.length_append, cntSelf_eq n, cntForest_eq ns]
    rfl

end

/-- **C7.**  For a feed root (`rss`/`feed`/`channel`), the number of
rendered feed items equals the number of `item`/`entry` elements in the
document, the item list is a sublist of the document-order traversal (so
items appear in source order), and the renderer emits exactly one
`feedItemHtml` block per item in that order. -/
theorem feed_items_count_order :
    ∀ root : Node,
      lowerStr root.tagName ∈ (["rss", "feed", "channel"] : List String) →
      (feedItems root).length = countItemEntry root ∧
      (feedItems root).Sublist root.descendants ∧
      convertFeedToHtml root =
        "<div class=\"xml-feed\">" ++ "<h1>" ++ feedTitle root ++ "</h1>" ++
          feedDescriptionPart root ++ feedItemsPart root ++ "</div>" ∧
      feedItemsPart root =
        (if (feedItems root).isEmpty then ""
         else "<div class=\"feed-items\">" ++
           String.join ((feedItems root).map feedItemHtml) ++ "</div>") := by
  intro root _
  refine ⟨?_, ?_, rfl, rfl⟩
  · exact cntForest_eq root.childNodes
  · exact List.filter_sublist _

/-- Witness for C7 on `feedExample` (an `rss` root with two items). -/
theorem feed_items_count_order_witness :
    lowerStr feedExample.tagName ∈ (["rss", "feed", "channel"] : List String) ∧
    (feedItems feedExample).length = countItemEntry feedExample ∧
    countItemEntry feedExample = 2 :=
  ⟨by decide, (feed_items_count_order feedExample (by decide)).1, by decide⟩

/-- A `data-`-prefixed attribute name never collides with a name that does
not start with `d`. -/
theorem dataName_ne (n k : String) (hk : k.data.head? ≠ some 'd') :
    (("data-" ++ n : String) == k) = false := by
  have hd : ("data-" ++ n : String).data = 'd' :: 'a' :: 't' :: 'a' :: '-' :: n.data := by
    cases n with
    | mk nd => rfl
  cases hbeq : (("data-" ++ n : String) == k)
  · rfl
  · exfalso
    apply hk
    rw [← eq_of_beq hbeq, hd]
    rfl

/-- **C8.**  In the semantic renderer: an anchor with a source `href` emits
that `href`; an image with a source `src` emits that `src` plus an `alt`
(defaulting to empty); every other source attribute is re-emitted
`data-`-prefixed with its original value; and `href`/`src` each appear at
most once among the emitted attributes. -/
theorem semantic_attr_handling :
    ∀ e : Node,
      (htmlTagFor (lowerStr e.tagName) = "a" →
        ∀ v, getAttr e "href" = some v → ("href", v) ∈ semAttrs e) ∧
      (htmlTagFor (lowerStr e.tagName) = "img" →
        ∀ v, getAttr e "src" = some v →
          ("src", v) ∈ semAttrs e ∧
          ("alt", (getAttr e "alt").getD "") ∈ semAttrs e) ∧
      (∀ nv ∈ e.attrList, nv.1 ≠ "href" → nv.1 ≠ "src" →
        (("data-" ++ nv.1 : String), nv.2) ∈ semAttrs e) ∧
      countKey (semAttrs e) "href" ≤ 1 ∧
      countKey (semAttrs e) "src" ≤ 1 := by
  intro e
  refine ⟨?_, ?_, ?_, ?_, ?_⟩
  · intro hT v hv
    simp only [semAttrs, hT, hv]
    simp
  · intro hT v hv
    simp only [semAttrs, hT, hv]
    constructor <;> simp
  · intro nv hmem hn1 hn2
    have hpred : (!(nv.1 == "href") && !(nv.1 == "src")) = true := by
      rw [beq_decide, beq_decide]
      simp [hn1, hn2]
    simp only [semAttrs]
    exact List.mem_cons_of_mem _
      (List.mem_append_right _
        (List.mem_map.mpr ⟨nv, List.mem_filter.mpr ⟨hmem, hpred⟩, rfl⟩))
  · simp only [semAttrs, countKey]
    rw [List.filter_cons, if_neg (fun hc => nomatch hc), List.filter_append,
      List.length_append]
    have hdata : ((e.attrList.filter
        (fun a => !(a.1 == "href") && !(a.1 == "src"))).map
        (fun a => (("data-" ++ a.1 : String), a.2))).filter
          (fun a => a.1 == "href") = [] := by
      rw [List.filter_eq_nil_iff]
      intro a ha
      obtain ⟨b, _, rfl⟩ := List.mem_map.mp ha
      simp [dataName_ne b.1 "href" (by decide)]
    rw [hdata]
    simp only [List.length_nil, Nat.add_zero]
    split
    · simp [List.filter_cons]
    · split
      · simp [List.filter_cons]
      · simp
  · simp only [semAttrs, countKey]
    rw [List.filter_cons, if_neg (fun hc => nomatch hc), List.filter_append,
      List.length_append]
    have hdata : ((e.attrList.filter
        (fun a => !(a.1 == "href") && !(a.1 == "src"))).map
        (fun a => (("data-" ++ a.1 : String), a.2))).filter
          (fun a => a.1 == "src") = [] := by
      rw [List.filter_eq_nil_iff]
      intro a ha
      obtain ⟨b, _, rfl⟩ := List.mem_map.mp ha
      simp [dataName_ne b.1 "src" (by decide)]
    rw [hdata]
    simp only [List.length_nil, Nat.add_zero]
    split
    · simp [List.filter_cons]
    · split
      · simp [List.filter_cons]
      · simp

/-- Witness for C8 on a `link` element (mapped to an anchor) carrying
`href` and `id` attributes. -/
theorem semantic_attr_handling_witness :
    htmlTagFor (lowerStr anchorExample.tagName) = "a" ∧
    getAttr anchorExample "href" = some "https://example.org" ∧
    ("href", "https://example.org") ∈ semAttrs anchorExample ∧
    (("data-" ++ "id" : String), "7") ∈ semAttrs anchorExample ∧
    countKey (semAttrs anchorExample) "href" ≤ 1 := by
  refine ⟨rfl, rfl, ?_, ?_, ?_⟩
  · exact (semantic_attr_handling anchorExample).1 rfl _ rfl
  · refine (semantic_attr_handling anchorExample).2.2.1 ("id", "7") ?_
      (by decide) (by decide)
    rw [show anchorExample.attrList =
      [("href", "https://example.org"), ("id", "7")] from rfl]
    exact List.Mem.tail _ (List.Mem.head _)
  · exact (semantic_attr_handling anchorExample).2.2.2.1

/-- Rebuilding a string from its characters is the identity. -/
theorem strmk (r : String) : (⟨r.data⟩ : String) = r := by
  cases r
  rfl

/-- A character with `contains` false is not a member. -/
theorem char_not_mem_of_contains_false {l : List Char} {c : Char}
    (h : l.contains c = false) : c ∉ l := by
  intro hm
  have h2 : l.contains c = true := List.elem_iff.mpr hm
  rw [h] at h2
  exact Bool.noConfusion h2

/-- A non-member has `contains` false. -/
theorem contains_false_of_not_mem {l : List Char} {c : Char} (h : c ∉ l) :
    l.contains c = false := by
  cases hc : l.contains c
  · rfl
  · exact absurd (List.elem_iff.mp hc) h

/-- Indentation runs are whitespace. -/
theorem spaces_all_ws (n : Nat) : ((List.replicate n ' ').all isWs) = true := by
  rw [List.all_eq_true]
  intro x hx
  rw [List.eq_of_mem_replicate hx]
  rfl

/-- Whitespace runs contain no `<`. -/
theorem ws_no_lt {l : List Char} (h : l.all isWs = true) : '<' ∉ l := by
  intro hm
  rw [List.all_eq_true] at h
  exact absurd (h _ hm) (by decide)

/-- Trimming an all-whitespace run gives the empty run. -/
theorem trim_of_all_ws {l : List Char} (h : l.all isWs = true) :
    trimCh l = [] := by
  unfold trimCh
  have h1 : l.dropWhile isWs = [] := by
    rw [List.dropWhile_eq_nil_iff]
    rw [List.all_eq_true] at h
    exact h
  rw [h1]
  rfl

/-- Dropping whitespace skips an all-whitespace prefix. -/
theorem dropWhile_ws_skip {w l : List Char} (h : w.all isWs = true) :
    (w ++ l).dropWhile isWs = l.dropWhile isWs := by
  rw [List.dropWhile_append]
  have h1 : w.dropWhile isWs = [] := by
    rw [List.dropWhile_eq_nil_iff]
    rw [List.all_eq_true] at h
    exact h
  rw [h1]
  rfl

/-- The head surviving `dropWhile` falsifies the predicate. -/
theorem dropWhile_head_false (p : Char → Bool) :
    ∀ (l : List Char) (c : Char) (rest : List Char),
      l.dropWhile p = c :: rest → p c = false := by
  intro l
  induction l with
  | nil => intro c rest h; exact absurd h (by simp)
  | cons a as ih =>
    intro c rest h
    by_cases hp : p a = true
    · rw [List.dropWhile_cons_of_pos hp] at h
      exact ih c rest h
    · rw [List.dropWhile_cons_of_neg hp] at h
      cases h
      cases hpa : p a
      · rfl
      · exact absurd hpa hp

/-- `dropWhile` keeps a list whose head falsifies the predicate. -/
theorem dropWhile_of_head_false {l : List Char} {c : Char}
    (hc : isWs c = false) : (c :: l).dropWhile isWs = c :: l :=
  List.dropWhile_cons_of_neg (by rw [hc]; exact Bool.noConfusion)

/-- Trimming strips whitespace padding around a tidy run. -/
theorem trim_pad {w1 u w2 : List Char} (h1 : w1.all isWs = true)
    (h2 : w2.all isWs = true) (hu : tidyText u = true) :
    trimCh (w1 ++ (u ++ w2)) = u := by
  cases u with
  | nil => exact absurd hu (by simp [tidyText])
  | cons c u' =>
    have hhead : (c :: u').head? = some c := rfl
    cases hgl : (c :: u').getLast? with
    | none => exact absurd hgl (by simp)
    | some b =>
      unfold tidyText at hu
      rw [hhead, hgl] at hu
      simp only [Bool.and_eq_true, Bool.not_eq_true'] at hu
      obtain ⟨⟨hcws, hbws⟩, _⟩ := hu
      unfold trimCh
      rw [dropWhile_ws_skip h1,
        show (c :: u') ++ w2 = c :: (u' ++ w2) from rfl,
        dropWhile_of_head_false hcws,
        show c :: (u' ++ w2) = (c :: u') ++ w2 from rfl,
        List.reverse_append,
        dropWhile_ws_skip (by rw [List.all_reverse]; exact h2)]
      have hurev : (c :: u').reverse.head? = some b := by
        rw [List.head?_reverse]
        exact hgl
      cases hrev : (c :: u').reverse with
      | nil => rw [hrev] at hurev; exact absurd hurev (by simp)
      | cons b0 rest =>
        have hb0 : b0 = b := by
          rw [hrev] at hurev
          exact Option.some.inj hurev
        have hb0ws : isWs b0 = false := by
          rw [hb0]
          exact hbws
        rw [dropWhile_of_head_false hb0ws, ← hrev,
          List.reverse_reverse]

/-- A nonempty trim of a `<`-free run is tidy. -/
theorem tidy_trim {l : List Char} (hlt : l.contains '<' = false)
    (hne : trimCh l ≠ []) : tidyText (trimCh l) = true := by
  have hmem : ∀ x ∈ trimCh l, x ∈ l := by
    intro x hx
    unfold trimCh at hx
    rw [List.mem_reverse] at hx
    have hx2 := (List.dropWhile_suffix isWs).subset hx
    rw [List.mem_reverse] at hx2
    exact (List.dropWhile_suffix isWs).subset hx2
  cases hB : (l.dropWhile isWs).reverse.dropWhile isWs with
  | nil =>
    exfalso
    apply hne
    unfold trimCh
    rw [hB]
    rfl
  | cons b B' =>
    have hbws : isWs b = false := dropWhile_head_false isWs _ _ _ hB
    have htrim : trimCh l = (b :: B').reverse := by
      unfold trimCh
      rw [hB]
    obtain ⟨pre, hpre⟩ :=
      List.dropWhile_suffix (l := (l.dropWhile isWs).reverse) isWs
    rw [hB] at hpre
    have hApre : l.dropWhile isWs = (b :: B').reverse ++ pre.reverse := by
      rw [← List.reverse_append, hpre, List.reverse_reverse]
    cases hBrev : (b :: B').reverse with
    | nil => exact absurd hBrev (by simp)
    | cons h0 t0 =>
      have hA2 : l.dropWhile isWs = h0 :: (t0 ++ pre.reverse) := by
        rw [hApre, hBrev]
        rfl
      have h0ws : isWs h0 = false := dropWhile_head_false isWs _ _ _ hA2
      have hh : (trimCh l).head? = some h0 := by
        rw [htrim, hBrev]
        rfl
      have hgl : (trimCh l).getLast? = some b := by
        rw [htrim, List.getLast?_reverse]
        rfl
      have hcont : (trimCh l).contains '<' = false :=
        contains_false_of_not_mem
          (fun hm => char_not_mem_of_contains_false hlt (hmem _ hm))
      have hshape : tidyText (trimCh l) =
          (!isWs h0 && !isWs b && !(trimCh l).contains '<') := by
        unfold tidyText
        rw [hh, hgl]
      rw [hshape, h0ws, hbws, hcont]
      rfl

/-- The scanner accumulates a `<`-free run in text mode. -/
theorem tokChars_skip (xs : List Char) :
    ∀ (rest acc : List Char), '<' ∉ xs →
      tokChars (xs ++ rest) acc false = tokChars rest (xs.reverse ++ acc) false := by
  induction xs with
  | nil => intro rest acc _; rfl
  | cons c cs ih =>
    intro rest acc hlt
    have hc : ¬ (c = '<') := fun h => hlt (h ▸ List.mem_cons_self c cs)
    show tokChars (c :: (cs ++ rest)) acc false = _
    simp only [tokChars]
    rw [if_neg hc, ih rest (c :: acc) (fun hm => hlt (List.mem_cons_of_mem _ hm)),
      List.reverse_cons, List.append_assoc]
    rfl

/-- The scanner recovers a `>`-free tag body followed by `>`. -/
theorem tokChars_tag (r : List Char) :
    ∀ (rest acc : List Char), '>' ∉ r →
      tokChars (r ++ '>' :: rest) acc true =
        .tag ⟨acc.reverse ++ r⟩ :: tokChars rest [] false := by
  induction r with
  | nil =>
    intro rest acc _
    show tokChars ('>' :: rest) acc true = _
    simp only [tokChars]
    rw [if_pos trivial, List.append_nil]
  | cons c cs ih =>
    intro rest acc hgt
    have hc : ¬ (c = '>') := fun h => hgt (h ▸ List.mem_cons_self c cs)
    show tokChars (c :: (cs ++ '>' :: rest)) acc true = _
    simp only [tokChars]
    rw [if_neg hc, ih rest (c :: acc) (fun hm => hgt (List.mem_cons_of_mem _ hm)),
      List.reverse_cons, List.append_assoc]
    rfl

/-- Output of the scanner in tag mode never starts with a text run. -/
theorem tokChars_true_headNotText : ∀ (l acc : List Char),
    headNotText (tokChars l acc true) = true := by
  intro l
  induction l with
  | nil => intro acc; rfl
  | cons c cs ih =>
    intro acc
    simp only [tokChars]
    by_cases hc : c = '>'
    · rw [if_pos hc]; rfl
    · rw [if_neg hc]; exact ih (c :: acc)

/-- Scanner output satisfies the raw invariant: tags `>`-free, texts
`<`-free, texts never adjacent. -/
theorem tokChars_rawOk : ∀ (l acc : List Char) (b : Bool),
    (b = false → '<' ∉ acc) → (b = true → '>' ∉ acc) →
    rawOk (tokChars l acc b) = true := by
  intro l
  induction l with
  | nil =>
    intro acc b hf ht
    cases b
    · simp only [tokChars]
      by_cases hacc : acc.isEmpty = true
      · rw [if_pos hacc]; rfl
      · rw [if_neg hacc]
        simp [rawOk, headNotText]
        exact hf rfl
    · simp [tokChars, rawOk]
      exact ht rfl
  | cons c cs ih =>
    intro acc b hf ht
    cases b
    · simp only [tokChars]
      by_cases hc : c = '<'
      · rw [if_pos hc]
        have hrec : rawOk (tokChars cs [] true) = true :=
          ih [] true (fun h => Bool.noConfusion h) (fun _ => List.not_mem_nil _)
        by_cases hacc : acc.isEmpty = true
        · rw [if_pos hacc]
          exact hrec
        · rw [if_neg hacc]
          simp [rawOk, hrec, tokChars_true_headNotText]
          exact hf rfl
      · rw [if_neg hc]
        refine ih (c :: acc) false ?_ (fun h => Bool.noConfusion h)
        intro _ hm
        rcases List.mem_cons.mp hm with h | h
        · exact hc h.symm
        · exact hf rfl h
    · simp only [tokChars]
      by_cases hc : c = '>'
      · rw [if_pos hc]
        have hrec : rawOk (tokChars cs [] false) = true :=
          ih [] false (fun _ => List.not_mem_nil _) (fun h => Bool.noConfusion h)
        simp [rawOk, hrec]
        exact ht rfl
      · rw [if_neg hc]
        refine ih (c :: acc) true (fun h => Bool.noConfusion h) ?_
        intro _ hm
        rcases List.mem_cons.mp hm with h | h
        · exact hc h.symm
        · exact ht rfl h

/-- Normalization preserves not-starting-with-text. -/
theorem normToks_headNotText : ∀ ts : List HTok,
    headNotText ts = true → headNotText (normToks ts) = true
  | [] => fun _ => rfl
  | .tag _ :: _ => fun _ => rfl
  | .txt _ :: _ => fun h => absurd h (by simp [headNotText])

/-- Normalizing raw scanner output yields a tidy token stream. -/
theorem normToks_tidy : ∀ ts : List HTok,
    rawOk ts = true → tidyToks (normToks ts) = true
  | [] => fun _ => rfl
  | .tag r :: ts => fun h => by
    simp only [rawOk, Bool.and_eq_true] at h
    simp only [normToks, tidyToks, Bool.and_eq_true]
    exact ⟨h.1, normToks_tidy ts h.2⟩
  | .txt tstr :: ts => fun h => by
    simp only [rawOk, Bool.and_eq_true] at h
    obtain ⟨⟨h1, h2⟩, h3⟩ := h
    simp only [normToks]
    cases htr : trimCh tstr.data with
    | nil => exact normToks_tidy ts h3
    | cons c cs =>
      simp only [tidyToks, Bool.and_eq_true]
      refine ⟨⟨?_, normToks_headNotText ts h2⟩, normToks_tidy ts h3⟩
      have hcont : tstr.data.contains '<' = false := by
        cases hx : tstr.data.contains '<'
        · rfl
        · exfalso
          rw [hx] at h1
          exact Bool.noConfusion h1
      have htidy := tidy_trim hcont (by rw [htr]; exact fun hh => nomatch hh)
      rw [htr] at htidy
      exact htidy

/-- Flushing at `<` as a list prepend. -/
theorem tokChars_lt (l acc : List Char) :
    tokChars ('<' :: l) acc false =
      (if acc.isEmpty then ([] : List HTok) else [.txt ⟨acc.reverse⟩]) ++
        tokChars l [] true := by
  simp only [tokChars]
  rw [if_pos trivial]
  by_cases h : acc.isEmpty = true
  · rw [if_pos h, if_pos h]
    rfl
  · rw [if_neg h, if_neg h]
    rfl

/-- A newline is consumed into the pending chunk. -/
theorem tokChars_nl (R : List Char) :
    tokChars ('\n' :: R) [] false = tokChars R ['\n'] false := by
  simp only [tokChars]
  rw [if_neg (by decide)]

/-- Scanning a `<`-free prefix up to a `<`. -/
theorem tokChars_prefix_lt (pre tail acc : List Char) (hpre : '<' ∉ pre) :
    tokChars (pre ++ '<' :: tail) acc false =
      (if (pre.reverse ++ acc).isEmpty then ([] : List HTok)
       else [.txt ⟨acc.reverse ++ pre⟩]) ++ tokChars tail [] true := by
  rw [tokChars_skip pre _ acc hpre, tokChars_lt, List.reverse_append,
    List.reverse_reverse]

/-- Scanning a `<`-free run to the end of input. -/
theorem tokChars_epilogue (pre acc : List Char) (hpre : '<' ∉ pre) :
    tokChars pre acc false =
      if (pre.reverse ++ acc).isEmpty then ([] : List HTok)
      else [.txt ⟨acc.reverse ++ pre⟩] := by
  rw [show tokChars pre acc false = tokChars (pre ++ []) acc false from by
      rw [List.append_nil],
    tokChars_skip pre [] acc hpre]
  simp only [tokChars]
  rw [List.reverse_append, List.reverse_reverse]

/-- Appending to the reverse of a nonempty list is nonempty. -/
theorem isEmpty_append_false {l l' : List Char} (h : l ≠ []) :
    (l.reverse ++ l').isEmpty = false := by
  cases hrev : l.reverse with
  | nil => exact absurd (by simpa using hrev) h
  | cons a b => rfl

/-- A flushed all-whitespace chunk disappears under normalization. -/
theorem normToks_wsflush (X : List Char) (b : Bool) (rest : List HTok)
    (h : X.all isWs = true) :
    normToks ((if b then ([] : List HTok) else [.txt ⟨X⟩]) ++ rest) =
      normToks rest := by
  cases b
  · show normToks (.txt ⟨X⟩ :: rest) = _
    simp only [normToks]
    rw [show trimCh (String.mk X).data = [] from trim_of_all_ws h]
  · rfl

/-- A flushed chunk that is a tidy run padded by whitespace normalizes to
that run. -/
theorem normToks_txtflush (w1 w2 : List Char) (u : String) (rest : List HTok)
    (hw1 : w1.all isWs = true) (hw2 : w2.all isWs = true)
    (hu : tidyText u.data = true) :
    normToks (.txt ⟨w1 ++ (u.data ++ w2)⟩ :: rest) = .txt u :: normToks rest := by
  simp only [normToks]
  rw [show trimCh (String.mk (w1 ++ (u.data ++ w2))).data = u.data from
    trim_pad hw1 hw2 hu]
  cases hud : u.data with
  | nil => exact absurd hu (by rw [hud]; simp [tidyText])
  | cons c cs =>
    have hcu : (⟨c :: cs⟩ : String) = u := by
      rw [← hud]
    show HTok.txt ⟨c :: cs⟩ :: normToks rest = HTok.txt u :: normToks rest
    rw [hcu]

/-- A tidy run is nonempty and `<`-free. -/
theorem tidyText_parts {l : List Char} (h : tidyText l = true) :
    l ≠ [] ∧ '<' ∉ l := by
  cases l with
  | nil => exact absurd h (by simp [tidyText])
  | cons c l' =>
    refine ⟨by simp, ?_⟩
    cases hgl : (c :: l').getLast? with
    | none => exact absurd hgl (by simp)
    | some b =>
      unfold tidyText at h
      rw [show (c :: l').head? = some c from rfl, hgl] at h
      simp only [Bool.and_eq_true] at h
      obtain ⟨_, hcont⟩ := h
      apply char_not_mem_of_contains_false
      cases hx : (c :: l').contains '<'
      · rfl
      · rw [hx] at hcont
        exact Bool.noConfusion hcont

/-- A tidy tag body is `>`-free. -/
theorem tidyTag_no_gt {r : List Char} (h : (!r.contains '>') = true) :
    '>' ∉ r := by
  apply char_not_mem_of_contains_false
  cases hx : r.contains '>'
  · rfl
  · rw [hx] at h
    exact Bool.noConfusion h

/-- Rendering then re-scanning and normalizing a tidy token stream is the
identity: the pretty-printer's output determines the same tokens. -/
theorem roundtrip : ∀ L : List HTok, tidyToks L = true →
    ∀ (acc : List Char) (d : Nat), acc.all isWs = true →
    normToks (tokChars (renderToks d L) acc false) = L
  | [], _, acc, d, hacc => by
    show normToks (tokChars [] acc false) = []
    rw [tokChars_epilogue [] acc (List.not_mem_nil _)]
    rw [show (([] : List Char).reverse ++ acc) = acc from rfl]
    by_cases he : acc.isEmpty = true
    · rw [if_pos he]
      rfl
    · rw [if_neg he]
      simp only [normToks]
      rw [show trimCh (String.mk (acc.reverse ++ [])).data = [] from
        trim_of_all_ws (by rw [List.all_append, List.all_reverse, hacc]; rfl)]
  | .tag r :: ts, h, acc, d, hacc => by
    simp only [tidyToks, Bool.and_eq_true] at h
    obtain ⟨h1, h2⟩ := h
    have hrne : '>' ∉ r.data := tidyTag_no_gt h1
    simp only [renderToks, tokContent]
    simp only [List.cons_append, List.append_assoc, List.singleton_append]
    rw [tokChars_prefix_lt _ _ _ (ws_no_lt (spaces_all_ws _))]
    rw [tokChars_tag _ _ _ hrne]
    rw [normToks_wsflush _ _ _
      (by rw [List.all_append, List.all_reverse, spaces_all_ws, hacc]; rfl)]
    simp only [normToks, List.reverse_nil, List.nil_append]
    rw [strmk, tokChars_nl, roundtrip ts h2 ['\n'] _ (by decide)]
  | .txt u :: .txt v :: ts, h, acc, d, hacc => by
    exact absurd h (by simp [tidyToks, headNotText])
  | [.txt u], h, acc, d, hacc => by
    simp only [tidyToks, Bool.and_eq_true] at h
    obtain ⟨⟨h1, _⟩, _⟩ := h
    obtain ⟨hne, hlt⟩ := tidyText_parts h1
    simp only [renderToks, tokContent]
    generalize (if tokIsClose (HTok.txt u) = true then d - 1 else d) = e1
    have hpre : '<' ∉ List.replicate (2 * e1) ' ' ++ u.data ++ ['\n'] := by
      intro hm
      rcases List.mem_append.mp hm with hm | hm
      · rcases List.mem_append.mp hm with hm | hm
        · exact ws_no_lt (spaces_all_ws _) hm
        · exact hlt hm
      · simp at hm
    rw [tokChars_epilogue _ acc hpre]
    have hemp : ((List.replicate (2 * e1) ' ' ++ u.data ++ ['\n']).reverse ++
        acc).isEmpty = false :=
      isEmpty_append_false (by simp)
    rw [if_neg (by rw [hemp]; exact fun hc => Bool.noConfusion hc)]
    rw [show (⟨acc.reverse ++ (List.replicate (2 * e1) ' ' ++ u.data ++ ['\n'])⟩ :
        String) =
        (⟨(acc.reverse ++ List.replicate (2 * e1) ' ') ++ (u.data ++ ['\n'])⟩ :
        String) from
      congrArg (fun l => (⟨l⟩ : String)) (by simp [List.append_assoc])]
    rw [normToks_txtflush _ _ _ _
      (by rw [List.all_append, List.all_reverse, hacc, spaces_all_ws]; rfl)
      (by decide) h1]
    rfl
  | .txt u :: .tag r2 :: ts, h, acc, d, hacc => by
    simp only [tidyToks, Bool.and_eq_true] at h
    obtain ⟨⟨h1, _⟩, hr2, hts⟩ := h
    obtain ⟨hne, hlt⟩ := tidyText_parts h1
    have hrne : '>' ∉ r2.data := tidyTag_no_gt hr2
    simp only [renderToks, tokContent]
    simp only [List.cons_append, List.append_assoc, List.singleton_append,
      List.nil_append]
    generalize (if tokIsClose (HTok.txt u) = true then d - 1 else d) = e1
    generalize (if tokIsOpen (HTok.txt u) = true then e1 + 1 else e1) = e2
    generalize (if tokIsClose (HTok.tag r2) = true then e2 - 1 else e2) = e3
    generalize (if tokIsOpen (HTok.tag r2) = true then e3 + 1 else e3) = e4
    rw [show List.replicate (2 * e1) ' ' ++
        (u.data ++ '\n' :: (List.replicate (2 * e3) ' ' ++
          '<' :: (r2.data ++ '>' :: '\n' :: renderToks e4 ts))) =
        (List.replicate (2 * e1) ' ' ++
          (u.data ++ ('\n' :: List.replicate (2 * e3) ' '))) ++
        '<' :: (r2.data ++ '>' :: '\n' :: renderToks e4 ts) from by
      simp [List.append_assoc]]
    rw [tokChars_prefix_lt _ _ _ (by
      intro hm
      rcases List.mem_append.mp hm with hm | hm
      · exact ws_no_lt (spaces_all_ws _) hm
      · rcases List.mem_append.mp hm with hm | hm
        · exact hlt hm
        · rcases List.mem_cons.mp hm with hm | hm
          · exact absurd hm.symm (by decide)
          · exact ws_no_lt (spaces_all_ws _) hm)]
    have hemp : ((List.replicate (2 * e1) ' ' ++
        (u.data ++ ('\n' :: List.replicate (2 * e3) ' '))).reverse ++
        acc).isEmpty = false :=
      isEmpty_append_false (by simp)
    rw [if_neg (by rw [hemp]; exact fun hc => Bool.noConfusion hc)]
    rw [tokChars_tag _ _ _ hrne]
    rw [show (⟨acc.reverse ++ (List.replicate (2 * e1) ' ' ++
        (u.data ++ ('\n' :: List.replicate (2 * e3) ' ')))⟩ : String) =
        (⟨(acc.reverse ++ List.replicate (2 * e1) ' ') ++
          (u.data ++ ('\n' :: List.replicate (2 * e3) ' '))⟩ : String) from by
      rw [List.append_assoc]]
    rw [List.singleton_append]
    rw [normToks_txtflush _ _ _ _
      (by rw [List.all_append, List.all_reverse, hacc, spaces_all_ws]; rfl)
      (by
        rw [List.all_cons, spaces_all_ws]
        rfl) h1]
    simp only [normToks, List.reverse_nil, List.nil_append]
    rw [strmk, tokChars_nl, roundtrip ts hts ['\n'] _ (by decide)]

/-- An empty trim forces an all-whitespace run. -/
theorem trim_nil_all {l : List Char} (h : trimCh l = []) :
    l.all isWs = true := by
  unfold trimCh at h
  have h2 : (l.dropWhile isWs).reverse.dropWhile isWs = [] := by
    cases hx : (l.dropWhile isWs).reverse.dropWhile isWs
    · rfl
    · rw [hx] at h
      simp at h
  rw [List.dropWhile_eq_nil_iff] at h2
  have h3 : ∀ x ∈ l.dropWhile isWs, isWs x = true := by
    intro x hx
    exact h2 x (List.mem_reverse.mpr hx)
  rw [List.all_eq_true]
  intro x hx
  rw [← List.takeWhile_append_dropWhile (p := isWs) (l := l)] at hx
  rcases List.mem_append.mp hx with hm | hm
  · exact List.mem_takeWhile_imp hm
  · exact h3 x hm

/-- Tag-mode scanning always produces a token that survives
normalization. -/
theorem normToks_true_ne : ∀ (l acc : List Char),
    normToks (tokChars l acc true) ≠ [] := by
  intro l
  induction l with
  | nil =>
    intro acc
    simp [tokChars, normToks]
  | cons c cs ih =>
    intro acc
    simp only [tokChars]
    by_cases hc : c = '>'
    · rw [if_pos hc]
      simp [normToks]
    · rw [if_neg hc]
      exact ih (c :: acc)

/-- Scanning input with some non-whitespace character produces a token that
survives normalization. -/
theorem normToks_ne : ∀ (l acc : List Char),
    (l.all isWs = false ∨ acc.all isWs = false) →
    normToks (tokChars l acc false) ≠ [] := by
  intro l
  induction l with
  | nil =>
    intro acc h
    rcases h with h | h
    · exact absurd h (by decide)
    · simp only [tokChars]
      have hie : acc.isEmpty = false := by
        cases acc
        · exact absurd h (by decide)
        · rfl
      rw [if_neg (by rw [hie]; exact fun hc => Bool.noConfusion hc)]
      simp only [normToks]
      cases htr : trimCh (String.mk acc.reverse).data with
      | nil =>
        exfalso
        have hall := trim_nil_all htr
        rw [List.all_reverse] at hall
        rw [hall] at h
        exact Bool.noConfusion h
      | cons c2 cs2 => simp
  | cons c cs ih =>
    intro acc h
    simp only [tokChars]
    by_cases hc : c = '<'
    · rw [if_pos hc]
      by_cases hacc : acc.isEmpty = true
      · rw [if_pos hacc]
        exact normToks_true_ne cs []
      · rw [if_neg hacc]
        simp only [normToks]
        cases htr : trimCh (String.mk acc.reverse).data with
        | nil => exact normToks_true_ne cs []
        | cons c2 cs2 => simp
    · rw [if_neg hc]
      apply ih (c :: acc)
      rcases h with h | h
      · rw [List.all_cons] at h
        cases hwc : isWs c
        · right
          rw [List.all_cons, hwc]
          rfl
        · left
          rw [hwc] at h
          simpa using h
      · right
        rw [List.all_cons, h]
        simp

/-- A tidy run contains a leading non-whitespace character. -/
theorem tidyText_head_false {l : List Char} (h : tidyText l = true) :
    l.all isWs = false := by
  cases l with
  | nil => exact absurd h (by simp [tidyText])
  | cons c l' =>
    cases hgl : (c :: l').getLast? with
    | none => exact absurd hgl (by simp)
    | some b =>
      unfold tidyText at h
      rw [show (c :: l').head? = some c from rfl, hgl] at h
      simp only [Bool.and_eq_true] at h
      obtain ⟨⟨hc, _⟩, _⟩ := h
      have hws : isWs c = false := by
        cases hx : isWs c
        · rfl
        · rw [hx] at hc
          exact Bool.noConfusion hc
      rw [List.all_cons, hws]
      rfl

/-- Rendering a nonempty tidy token stream never yields an all-whitespace
string. -/
theorem render_not_blank : ∀ (L : List HTok) (d : Nat),
    tidyToks L = true → L ≠ [] →
    (renderToks d L).all isWs = false := by
  intro L d htidy hne
  cases L with
  | nil => exact absurd rfl hne
  | cons t ts =>
    simp only [renderToks]
    rw [List.all_append, List.all_append]
    have hcontent : (tokContent t).all isWs = false := by
      cases t with
      | tag r => rfl
      | txt u =>
        simp only [tidyToks, Bool.and_eq_true] at htidy
        exact tidyText_head_false htidy.1.1
    rw [hcontent]
    simp

/-- **C9.**  `formatHtml` is idempotent: reformatting its own output
changes nothing (proved for every input string, hence in particular for
valid HTML). -/
theorem formatHtml_idempotent :
    ∀ s : String, formatHtml (formatHtml s) = formatHtml s := by
  intro s
  by_cases hb : isBlank s = true
  · unfold formatHtml
    rw [if_pos hb, if_pos (by rfl)]
  · have hb' : isBlank s = false := by
      cases h : isBlank s
      · rfl
      · exact absurd h hb
    have htidy : tidyToks (normToks (tokChars s.data [] false)) = true :=
      normToks_tidy _ (tokChars_rawOk s.data [] false
        (fun _ => List.not_mem_nil _) (fun h => Bool.noConfusion h))
    have hLne : normToks (tokChars s.data [] false) ≠ [] :=
      normToks_ne s.data [] (Or.inl hb')
    unfold formatHtml
    rw [if_neg hb]
    have hrb : isBlank (formatCode s "html") = false :=
      render_not_blank (normToks (tokChars s.data [] false)) 0 htidy hLne
    rw [if_neg (by rw [hrb]; exact fun hc => Bool.noConfusion hc)]
    show (⟨renderToks 0 (normToks (tokChars
      (renderToks 0 (normToks (tokChars s.data [] false))) [] false))⟩ : String) =
      formatCode s "html"
    rw [roundtrip (normToks (tokChars s.data [] false)) htidy [] 0 rfl]
    rfl

end XmlToHtml
